import Mathlib

/-!
Shallow embedding of the session orchestrator of the multimodal live API web
console (`src/hooks/use-live-api.ts`) and the tool-call handler of the Altair
component (`src/components/altair/Altair.tsx`).

Strings are modelled as `List Char`; JavaScript `String.prototype.trim`,
`Array.prototype.join(" ")`, `Array.prototype.filter`, `Array.prototype.find`
are modelled by the corresponding list functions.  JavaScript truthiness of a
string is non-emptiness; truthiness of an optional object field is `Option`
with `none` for `null`/`undefined`.
-/

namespace LiveApi

abbrev Str := List Char

/-- Whitespace recognised by `String.prototype.trim` (ASCII subset, which is
all that occurs in this client). -/
def isSpaceChar (c : Char) : Bool :=
  c == ' ' || c == '\t' || c == '\n' || c == '\r' || c == '\x0b' || c == '\x0c'

/-- Drop leading whitespace. -/
def ltrim (s : Str) : Str := s.dropWhile isSpaceChar

/-- Drop trailing whitespace. -/
def rtrim (s : Str) : Str := (s.reverse.dropWhile isSpaceChar).reverse

/-- JavaScript `s.trim()`. -/
def trim (s : Str) : Str := rtrim (ltrim s)

/-- A content part as delivered in server / client content events: its `text`
field may be absent (`none`). -/
structure Part where
  text : Option Str
  deriving DecidableEq, Repr

/-- JavaScript truthiness of `p.text`: present and non-empty. -/
def partHasText (p : Part) : Bool :=
  match p.text with
  | some t => t ≠ []
  | none => false

/-- The text of a part, defaulting to the empty string. -/
def partText (p : Part) : Str := p.text.getD []

/-- `parts.filter(p => p.text).map(p => p.text).join(" ")`. -/
def joinParts (parts : List Part) : Str :=
  List.intercalate [' '] ((parts.filter partHasText).map partText)

/-- One turn of a `clientContent` message (`turn.parts`). -/
structure Turn where
  parts : List Part
  deriving DecidableEq, Repr

/-- `message.clientContent.turns.map(turn => turn.parts.filter(p => p.text)
.map(p => p.text).join(" ")).join(" ")`. -/
def userText (turns : List Turn) : Str :=
  List.intercalate [' '] (turns.map (fun t => joinParts t.parts))

/-- The session configuration.  The hook only ever constructs configs through
`useState` initialisation and `setConfig`; the fields beyond the model name are
opaque data passed through to the transport and are elided here. -/
structure LiveConfig where
  model : Str
  deriving DecidableEq, Repr

/-- The initial value of the `config` React state in `useLiveAPI`:
`{ model: "models/gemini-2.0-flash-exp" }`. -/
def defaultConfig : LiveConfig :=
  { model := "models/gemini-2.0-flash-exp".toList }

/-- The state owned by the `useLiveAPI` hook.  `config` is an `Option` because
the `if (!config)` guard in `connect` tests the JavaScript value for
`null`/`undefined`; `connectAttempts` counts the calls made to
`client.connect` so that connection attempts are observable. -/
structure LiveState where
  connected : Bool
  config : Option LiveConfig
  volume : Nat
  currentResponse : Str
  textResponses : List Str
  userMessages : List Str
  connectAttempts : Nat
  deriving DecidableEq, Repr

/-- The state right after the hook mounts: all `useState` initial values. -/
def initialState : LiveState :=
  { connected := false
    config := some defaultConfig
    volume := 0
    currentResponse := []
    textResponses := []
    userMessages := []
    connectAttempts := 0 }

/-- The server events the hook subscribes to.  `content` carries
`content.modelTurn?.parts` (`none` when the chain is absent); `clientContent`
carries `message.clientContent?.turns`. -/
inductive ServerEvent where
  | close
  | interrupted
  | audio (data : List Nat)
  | content (modelTurnParts : Option (List Part))
  | turncomplete
  | clientContent (turns : Option (List Turn))
  deriving DecidableEq, Repr

/-- `onServerContent`: join the textual parts with a single space and, when the
joined string is non-blank, append it (with no separator) to the accumulator. -/
def onServerContent (s : LiveState) (parts : Option (List Part)) : LiveState :=
  match parts with
  | none => s
  | some parts =>
    let textParts := joinParts parts
    if trim textParts ≠ [] then
      { s with currentResponse := s.currentResponse ++ textParts }
    else s

/-- `onTurnComplete`: when the accumulator is non-blank, push its trimmed value
onto `textResponses` and reset the accumulator. -/
def onTurnComplete (s : LiveState) : LiveState :=
  if trim s.currentResponse ≠ [] then
    { s with
      textResponses := s.textResponses ++ [trim s.currentResponse]
      currentResponse := [] }
  else s

/-- `onClientContent`: join all textual parts of all turns and, when the result
is non-blank, push it (untrimmed) onto `userMessages`. -/
def onClientContent (s : LiveState) (turns : Option (List Turn)) : LiveState :=
  match turns with
  | none => s
  | some turns =>
    let text := userText turns
    if trim text ≠ [] then
      { s with userMessages := s.userMessages ++ [text] }
    else s

/-- Dispatch one server event to its handler.  `interrupted` stops the audio
streamer and `audio` enqueues a frame into it; the streamer lives outside the
hook state, so both leave the session state untouched. -/
def step (s : LiveState) : ServerEvent → LiveState
  | ServerEvent.close => { s with connected := false }
  | ServerEvent.interrupted => s
  | ServerEvent.audio _ => s
  | ServerEvent.content parts => onServerContent s parts
  | ServerEvent.turncomplete => onTurnComplete s
  | ServerEvent.clientContent turns => onClientContent s turns

/-- `setConfig`: the React state setter, always called with a config value. -/
def setConfig (s : LiveState) (c : LiveConfig) : LiveState :=
  { s with config := some c }

/-- `connect`: throws `"config has not been set"` when the config value is
missing, otherwise disconnects the client, calls `client.connect(config)` (one
connection attempt) and sets the connected flag. -/
def connect (s : LiveState) : Except String LiveState :=
  match s.config with
  | none => Except.error "config has not been set"
  | some _ =>
    Except.ok { s with connected := true, connectAttempts := s.connectAttempts + 1 }

/-- `disconnect`: `client.disconnect(); setConnected(false)`. -/
def disconnect (s : LiveState) : LiveState :=
  { s with connected := false }

/-- Everything that can change the hook state: a server event, a `setConfig`
call, a `connect` call (a throwing `connect` leaves the state unchanged), a
`disconnect` call, or the volume-meter worklet callback. -/
inductive Action where
  | ev (e : ServerEvent)
  | setCfg (c : LiveConfig)
  | conn
  | disc
  | vol (v : Nat)

/-- Apply one action to the hook state. -/
def applyAction (s : LiveState) : Action → LiveState
  | Action.ev e => step s e
  | Action.setCfg c => setConfig s c
  | Action.conn =>
    match connect s with
    | Except.ok t => t
    | Except.error _ => s
  | Action.disc => disconnect s
  | Action.vol v => { s with volume := v }

/-- The states the hook can actually be in: everything produced from the mount
state by events and operations. -/
inductive Reachable : LiveState → Prop
  | init : Reachable initialState
  | act {s : LiveState} (a : Action) : Reachable s → Reachable (applyAction s a)

/-- The net contribution of one `content` event to the accumulator: the
space-joined textual parts when non-blank, nothing otherwise. -/
def contentChunk (parts : Option (List Part)) : Str :=
  match parts with
  | none => []
  | some parts =>
    let textParts := joinParts parts
    if trim textParts ≠ [] then textParts else []

/-- The accumulator built up by a sequence of `content` events, starting
empty: per-event chunks concatenated with no separator. -/
def accumText (ps : List (Option (List Part))) : Str :=
  (ps.map contentChunk).flatten

/-- The invariant of the consumer-facing history: finalized model turns are
non-empty and trimmed; finalized user turns are non-blank. -/
def goodState (s : LiveState) : Prop :=
  (∀ r ∈ s.textResponses, r ≠ [] ∧ trim r = r) ∧
  (∀ u ∈ s.userMessages, trim u ≠ [])

/-- A function invocation inside a `toolcall` event.  The handler only reads
the `json_graph` argument, so `args` is modelled by that field. -/
structure FunctionCall where
  id : Str
  name : Str
  jsonGraph : Str
  deriving DecidableEq, Repr

/-- One entry of the `functionResponses` array of a `sendToolResponse` call:
`{ response: { output: { success: true } }, id: fc.id }`. -/
structure FunctionResponsePart where
  id : Str
  success : Bool
  deriving DecidableEq, Repr

/-- The name of the single registered declaration in `Altair.tsx`. -/
def declarationName : Str := "render_altair".toList

/-- The state of the Altair component that `onToolCall` touches: the
`jsonString` React state and the list of `sendToolResponse` calls made so far
(each call carries one `functionResponses` array). -/
structure AltairState where
  jsonString : Str
  sentCalls : List (List FunctionResponsePart)
  deriving DecidableEq, Repr

/-- The Altair component state right after mount. -/
def initialAltairState : AltairState :=
  { jsonString := [], sentCalls := [] }

/-- `onToolCall`: `find` the first invocation named `render_altair` and pass
its `json_graph` argument to `setJSONString`; then, when the event carries at
least one invocation, make one `sendToolResponse` call (after a 200 ms
`setTimeout`, modelled as part of the same transition) whose
`functionResponses` array maps every invocation to a generic success response
with its id. -/
def onToolCall (s : AltairState) (functionCalls : List FunctionCall) : AltairState :=
  let s1 :=
    match functionCalls.find? (fun fc => fc.name == declarationName) with
    | some fc => { s with jsonString := fc.jsonGraph }
    | none => s
  if functionCalls.length ≠ 0 then
    { s1 with
      sentCalls := s1.sentCalls ++
        [functionCalls.map (fun fc => { id := fc.id, success := true })] }
  else s1

/-- Fixture: a content event sequence delivering the fragments `"Hello"` and
`"world"` in two separate `content` events. -/
def psNoSpace : List (Option (List Part)) :=
  [some [{ text := some "Hello".toList }], some [{ text := some "world".toList }]]

/-- Fixture: a content event sequence delivering `"Hello"` and `" world"` in
two separate `content` events. -/
def psHelloWorld : List (Option (List Part)) :=
  [some [{ text := some "Hello".toList }], some [{ text := some " world".toList }]]

/-- Fixture: an invocation whose name matches no registered declaration. -/
def fcAlpha : FunctionCall :=
  { id := "1".toList, name := "get_weather".toList, jsonGraph := [] }

/-- Fixture: a second invocation whose name matches no registered declaration. -/
def fcBeta : FunctionCall :=
  { id := "2".toList, name := "get_time".toList, jsonGraph := [] }

/-- Fixture: an invocation of the registered declaration with argument `"A"`. -/
def fcGraphA : FunctionCall :=
  { id := "3".toList, name := "render_altair".toList, jsonGraph := "A".toList }

/-- Fixture: an invocation of the registered declaration with argument `"B"`. -/
def fcGraphB : FunctionCall :=
  { id := "4".toList, name := "render_altair".toList, jsonGraph := "B".toList }

end LiveApi

namespace LiveApi

/-! ## Lemmas about trimming -/

theorem dropWhile_self (p : Char → Bool) (l : Str) :
    (l.dropWhile p).dropWhile p = l.dropWhile p := by
  induction l with
  | nil => rfl
  | cons a l ih =>
    by_cases h : p a
    · simp [List.dropWhile_cons, h, ih]
    · simp [List.dropWhile_cons, h]

theorem ltrim_all_iff (s : Str) :
    (∀ c ∈ ltrim s, isSpaceChar c) ↔ (∀ c ∈ s, isSpaceChar c) := by
  constructor
  · intro h c hc
    have hs := @List.takeWhile_append_dropWhile _ isSpaceChar s
    rw [← hs] at hc
    rcases List.mem_append.mp hc with h1 | h1
    · exact List.mem_takeWhile_imp h1
    · exact h c h1
  · intro h c hc
    have hs := @List.takeWhile_append_dropWhile _ isSpaceChar s
    refine h c ?_
    rw [← hs]
    exact List.mem_append.mpr (Or.inr hc)

theorem trim_eq_nil_iff (s : Str) : trim s = [] ↔ ∀ c ∈ s, isSpaceChar c := by
  unfold trim rtrim
  rw [List.reverse_eq_nil_iff, List.dropWhile_eq_nil_iff]
  simp only [List.mem_reverse]
  exact ltrim_all_iff s

theorem trim_ne_nil_iff (s : Str) :
    trim s ≠ [] ↔ ∃ c ∈ s, ¬ isSpaceChar c := by
  rw [Ne, trim_eq_nil_iff]
  push_neg
  rfl

theorem trim_append_ne_nil_right (a b : Str) (h : trim b ≠ []) :
    trim (a ++ b) ≠ [] := by
  rw [trim_ne_nil_iff] at h ⊢
  rcases h with ⟨c, hc, hns⟩
  exact ⟨c, List.mem_append.mpr (Or.inr hc), hns⟩

theorem trim_append_ne_nil_left (a b : Str) (h : trim a ≠ []) :
    trim (a ++ b) ≠ [] := by
  rw [trim_ne_nil_iff] at h ⊢
  rcases h with ⟨c, hc, hns⟩
  exact ⟨c, List.mem_append.mpr (Or.inl hc), hns⟩

theorem ltrim_ltrim (s : Str) : ltrim (ltrim s) = ltrim s :=
  dropWhile_self isSpaceChar s

theorem rtrim_rtrim (s : Str) : rtrim (rtrim s) = rtrim s := by
  unfold rtrim
  rw [List.reverse_reverse, dropWhile_self]

theorem rtrim_append_eq (s : Str) :
    rtrim s ++ (s.reverse.takeWhile isSpaceChar).reverse = s := by
  unfold rtrim
  rw [← List.reverse_append, @List.takeWhile_append_dropWhile _ isSpaceChar s.reverse,
    List.reverse_reverse]

theorem length_dropWhile_le (p : Char → Bool) (l : Str) :
    (l.dropWhile p).length ≤ l.length := by
  induction l with
  | nil => simp
  | cons a l ih =>
    by_cases h : p a
    · rw [List.dropWhile_cons_of_pos h]
      exact Nat.le_trans ih (Nat.le_succ _)
    · rw [List.dropWhile_cons_of_neg h]

theorem head_not_space_of_ltrim_eq (c : Char) (l : Str)
    (h : ltrim (c :: l) = c :: l) : isSpaceChar c = false := by
  by_contra hc
  rw [Bool.not_eq_false] at hc
  unfold ltrim at h
  rw [List.dropWhile_cons_of_pos hc] at h
  have hlen := congrArg List.length h
  have hle := length_dropWhile_le isSpaceChar l
  simp only [List.length_cons] at hlen
  omega

theorem ltrim_eq_self_append (u t : Str) (h : ltrim (u ++ t) = u ++ t) :
    ltrim u = u := by
  cases u with
  | nil => rfl
  | cons c u =>
    have hc : isSpaceChar c = false := head_not_space_of_ltrim_eq c (u ++ t) h
    unfold ltrim
    rw [List.dropWhile_cons_of_neg (by simp [hc])]

theorem ltrim_rtrim_of_ltrim (s : Str) (h : ltrim s = s) :
    ltrim (rtrim s) = rtrim s := by
  refine ltrim_eq_self_append (rtrim s) (s.reverse.takeWhile isSpaceChar).reverse ?_
  rw [rtrim_append_eq]
  exact h

/-- JavaScript `trim` is idempotent. -/
theorem trim_trim (s : Str) : trim (trim s) = trim s := by
  unfold trim
  rw [ltrim_rtrim_of_ltrim (ltrim s) (ltrim_ltrim s), rtrim_rtrim]

end LiveApi

namespace LiveApi

/-! ## Lemmas about the orchestrator state machine -/

/-- `onServerContent` appends exactly the event's chunk to the accumulator. -/
theorem onServerContent_eq (s : LiveState) (p : Option (List Part)) :
    onServerContent s p =
      { s with currentResponse := s.currentResponse ++ contentChunk p } := by
  cases p with
  | none => simp [onServerContent, contentChunk]
  | some parts =>
    by_cases hc : trim (joinParts parts) = [] <;>
      simp [onServerContent, contentChunk, hc]

/-- Reduction of `onClientContent` on a present `turns` array. -/
theorem onClientContent_some (s : LiveState) (turns : List Turn) :
    onClientContent s (some turns) =
      if trim (userText turns) ≠ [] then
        { s with userMessages := s.userMessages ++ [userText turns] }
      else s := rfl

theorem accumText_nil : accumText [] = [] := rfl

theorem accumText_cons (p : Option (List Part)) (ps : List (Option (List Part))) :
    accumText (p :: ps) = contentChunk p ++ accumText ps := rfl

/-- A single event's chunk is empty or has non-whitespace content. -/
theorem contentChunk_cases (p : Option (List Part)) :
    contentChunk p = [] ∨ trim (contentChunk p) ≠ [] := by
  cases p with
  | none => exact Or.inl rfl
  | some parts =>
    by_cases hc : trim (joinParts parts) = []
    · left
      simp [contentChunk, hc]
    · right
      simp [contentChunk, hc]

/-- The accumulated text of a content event sequence is empty or has
non-whitespace content. -/
theorem accumText_cases (ps : List (Option (List Part))) :
    accumText ps = [] ∨ trim (accumText ps) ≠ [] := by
  induction ps with
  | nil => exact Or.inl rfl
  | cons p ps ih =>
    rw [accumText_cons]
    rcases contentChunk_cases p with h1 | h1
    · rw [h1, List.nil_append]
      exact ih
    · exact Or.inr (trim_append_ne_nil_left _ _ h1)

/-- Processing a list of `content` events appends their accumulated text to
the accumulator and changes nothing else. -/
theorem foldl_content (s : LiveState) (ps : List (Option (List Part))) :
    (ps.map ServerEvent.content).foldl step s =
      { s with currentResponse := s.currentResponse ++ accumText ps } := by
  induction ps generalizing s with
  | nil => simp [accumText_nil]
  | cons p ps ih =>
    simp only [List.map_cons, List.foldl_cons]
    have hstep : step s (ServerEvent.content p) = onServerContent s p := rfl
    rw [hstep, onServerContent_eq, ih, accumText_cons, List.append_assoc]

/-- The accumulator of the hook is either empty or has non-whitespace
content. -/
def goodAcc (s : LiveState) : Prop :=
  s.currentResponse = [] ∨ trim s.currentResponse ≠ []

theorem goodAcc_applyAction (s : LiveState) (a : Action) (h : goodAcc s) :
    goodAcc (applyAction s a) := by
  cases a with
  | ev e =>
    cases e with
    | close => exact h
    | interrupted => exact h
    | audio d => exact h
    | content p =>
      show goodAcc (onServerContent s p)
      rw [onServerContent_eq]
      rcases contentChunk_cases p with h1 | h1
      · rw [h1]
        unfold goodAcc
        simpa using h
      · exact Or.inr (trim_append_ne_nil_right _ _ h1)
    | turncomplete =>
      show goodAcc (onTurnComplete s)
      unfold onTurnComplete
      by_cases hc : trim s.currentResponse = []
      · rw [if_neg (by simpa using hc)]
        exact h
      · rw [if_pos hc]
        exact Or.inl rfl
    | clientContent t =>
      show goodAcc (onClientContent s t)
      cases t with
      | none => exact h
      | some turns =>
        rw [onClientContent_some]
        by_cases hc : trim (userText turns) = []
        · rw [if_neg (by simpa using hc)]
          exact h
        · rw [if_pos hc]
          exact h
  | setCfg c => exact h
  | conn =>
    show goodAcc (match connect s with | Except.ok t => t | Except.error _ => s)
    cases hcfg : s.config <;> simp [connect, hcfg] <;> exact h
  | disc => exact h
  | vol v => exact h

theorem reachable_goodAcc (s : LiveState) (h : Reachable s) : goodAcc s := by
  induction h with
  | init => exact Or.inl rfl
  | act a _ ih => exact goodAcc_applyAction _ a ih

/-- No action ever removes the config value. -/
theorem config_isSome_applyAction (s : LiveState) (a : Action)
    (h : s.config ≠ none) : (applyAction s a).config ≠ none := by
  cases a with
  | ev e =>
    cases e with
    | close => exact h
    | interrupted => exact h
    | audio d => exact h
    | content p =>
      show (onServerContent s p).config ≠ none
      rw [onServerContent_eq]
      exact h
    | turncomplete =>
      show (onTurnComplete s).config ≠ none
      unfold onTurnComplete
      by_cases hc : trim s.currentResponse = []
      · rw [if_neg (by simpa using hc)]
        exact h
      · rw [if_pos hc]
        exact h
    | clientContent t =>
      show (onClientContent s t).config ≠ none
      cases t with
      | none => exact h
      | some turns =>
        rw [onClientContent_some]
        by_cases hc : trim (userText turns) = []
        · rw [if_neg (by simpa using hc)]
          exact h
        · rw [if_pos hc]
          exact h
  | setCfg c => simp [applyAction, setConfig]
  | conn =>
    show (match connect s with | Except.ok t => t | Except.error _ => s).config ≠ none
    cases hcfg : s.config
    · exact absurd hcfg h
    · simp only [connect, hcfg]
      simp [hcfg]
  | disc => exact h
  | vol v => exact h

theorem reachable_config (s : LiveState) (h : Reachable s) : s.config ≠ none := by
  induction h with
  | init => simp [initialState]
  | act a _ ih => exact config_isSome_applyAction _ a ih

end LiveApi

namespace LiveApi

/-- Every action preserves the history invariant. -/
theorem goodState_applyAction (s : LiveState) (a : Action) (h : goodState s) :
    goodState (applyAction s a) := by
  cases a with
  | ev e =>
    cases e with
    | close => exact h
    | interrupted => exact h
    | audio d => exact h
    | content p =>
      show goodState (onServerContent s p)
      rw [onServerContent_eq]
      exact h
    | turncomplete =>
      show goodState (onTurnComplete s)
      unfold onTurnComplete
      by_cases hc : trim s.currentResponse = []
      · rw [if_neg (by simpa using hc)]
        exact h
      · rw [if_pos hc]
        refine ⟨?_, h.2⟩
        intro r hr
        rcases List.mem_append.mp hr with h1 | h1
        · exact h.1 r h1
        · rw [List.mem_singleton.mp h1]
          exact ⟨hc, trim_trim _⟩
    | clientContent t =>
      show goodState (onClientContent s t)
      cases t with
      | none => exact h
      | some turns =>
        rw [onClientContent_some]
        by_cases hc : trim (userText turns) = []
        · rw [if_neg (by simpa using hc)]
          exact h
        · rw [if_pos hc]
          refine ⟨h.1, ?_⟩
          intro u hu
          rcases List.mem_append.mp hu with h1 | h1
          · exact h.2 u h1
          · rw [List.mem_singleton.mp h1]
            exact hc
  | setCfg c => exact h
  | conn =>
    show goodState (match connect s with | Except.ok t => t | Except.error _ => s)
    cases hcfg : s.config
    · simp only [connect, hcfg]
      exact h
    · simp only [connect, hcfg]
      exact h
  | disc => exact h
  | vol v => exact h

/-- Every reachable hook state satisfies the history invariant. -/
theorem reachable_goodState (s : LiveState) (h : Reachable s) : goodState s := by
  induction h with
  | init =>
    constructor
    · intro r hr
      cases hr
    · intro u hu
      cases hu
  | act a _ ih => exact goodState_applyAction _ a ih

/-- No action ever mutates or removes an element of the two histories: the old
history is a prefix of the new one. -/
theorem applyAction_history_extends (s : LiveState) (a : Action) :
    s.textResponses <+: (applyAction s a).textResponses ∧
    s.userMessages <+: (applyAction s a).userMessages := by
  cases a with
  | ev e =>
    cases e with
    | close => exact ⟨List.prefix_rfl, List.prefix_rfl⟩
    | interrupted => exact ⟨List.prefix_rfl, List.prefix_rfl⟩
    | audio d => exact ⟨List.prefix_rfl, List.prefix_rfl⟩
    | content p =>
      show s.textResponses <+: (onServerContent s p).textResponses ∧
        s.userMessages <+: (onServerContent s p).userMessages
      rw [onServerContent_eq]
      exact ⟨List.prefix_rfl, List.prefix_rfl⟩
    | turncomplete =>
      show s.textResponses <+: (onTurnComplete s).textResponses ∧
        s.userMessages <+: (onTurnComplete s).userMessages
      unfold onTurnComplete
      by_cases hc : trim s.currentResponse = []
      · rw [if_neg (by simpa using hc)]
        exact ⟨List.prefix_rfl, List.prefix_rfl⟩
      · rw [if_pos hc]
        exact ⟨⟨[trim s.currentResponse], rfl⟩, List.prefix_rfl⟩
    | clientContent t =>
      show s.textResponses <+: (onClientContent s t).textResponses ∧
        s.userMessages <+: (onClientContent s t).userMessages
      cases t with
      | none => exact ⟨List.prefix_rfl, List.prefix_rfl⟩
      | some turns =>
        rw [onClientContent_some]
        by_cases hc : trim (userText turns) = []
        · rw [if_neg (by simpa using hc)]
          exact ⟨List.prefix_rfl, List.prefix_rfl⟩
        · rw [if_pos hc]
          exact ⟨List.prefix_rfl, ⟨[userText turns], rfl⟩⟩
  | setCfg c => exact ⟨List.prefix_rfl, List.prefix_rfl⟩
  | conn =>
    show s.textResponses <+:
        (match connect s with | Except.ok t => t | Except.error _ => s).textResponses ∧
      s.userMessages <+:
        (match connect s with | Except.ok t => t | Except.error _ => s).userMessages
    cases hcfg : s.config
    · simp only [connect, hcfg]
      exact ⟨List.prefix_rfl, List.prefix_rfl⟩
    · simp only [connect, hcfg]
      exact ⟨List.prefix_rfl, List.prefix_rfl⟩
  | disc => exact ⟨List.prefix_rfl, List.prefix_rfl⟩
  | vol v => exact ⟨List.prefix_rfl, List.prefix_rfl⟩

/-- `Array.prototype.find` returns the first match: with no match before it,
the invocation `fc` is the one found. -/
theorem find_first_match (pre post : List FunctionCall) (fc : FunctionCall)
    (hfc : (fc.name == declarationName) = true)
    (hpre : ∀ g ∈ pre, (g.name == declarationName) = false) :
    (pre ++ fc :: post).find? (fun g => g.name == declarationName) = some fc := by
  induction pre with
  | nil =>
    rw [List.nil_append]
    exact List.find?_cons_of_pos _ hfc
  | cons g pre ih =>
    rw [List.cons_append, List.find?_cons_of_neg]
    · exact ih fun g hg => hpre g (List.mem_cons_of_mem _ hg)
    · simp [hpre g (List.mem_cons_self g pre)]

/-- Reduction of `onToolCall` for a non-empty invocation list. -/
theorem onToolCall_ne_nil (s : AltairState) (tc : List FunctionCall) (h : tc ≠ []) :
    onToolCall s tc =
      { jsonString :=
          (match tc.find? (fun g => g.name == declarationName) with
           | some fc => fc.jsonGraph
           | none => s.jsonString)
        sentCalls := s.sentCalls ++
          [tc.map (fun fc => { id := fc.id, success := true })] } := by
  have hlen : tc.length ≠ 0 := by
    simpa using fun hl => h (List.length_eq_zero.mp hl)
  unfold onToolCall
  cases hf : tc.find? (fun g => g.name == declarationName)
  · rw [if_pos hlen]
  · rw [if_pos hlen]

end LiveApi

namespace LiveApi

/-! ## Claim theorems -/

/-- Claim C1, counterexample: the fragments `"Hello"` and `"world"` arriving in
two separate `content` events are concatenated with no separator, so the entry
appended on `turncomplete` is `"Helloworld"`, not the single-space-joined
`"Hello world"` the claim predicts. -/
theorem content_crossEvent_no_space :
    (step ((psNoSpace.map ServerEvent.content).foldl step initialState)
        ServerEvent.turncomplete).textResponses = ["Helloworld".toList] ∧
    (step ((psNoSpace.map ServerEvent.content).foldl step initialState)
        ServerEvent.turncomplete).textResponses ≠ ["Hello world".toList] := by
  constructor
  · decide
  · decide

/-- Claim C1, amended: starting from an empty accumulator, a sequence of
`content` events followed by one `turncomplete` appends the trim of the
accumulated text — fragments joined by a single space within one event,
per-event strings concatenated with no separator, blank per-event strings
dropped — when that text is non-blank, appends nothing when it is blank, and
leaves the accumulator empty afterwards in either case. -/
theorem content_turncomplete_aggregation (s : LiveState)
    (ps : List (Option (List Part))) (h : s.currentResponse = []) :
    (step ((ps.map ServerEvent.content).foldl step s)
        ServerEvent.turncomplete).textResponses =
      (if trim (accumText ps) = [] then s.textResponses
       else s.textResponses ++ [trim (accumText ps)]) ∧
    (step ((ps.map ServerEvent.content).foldl step s)
        ServerEvent.turncomplete).currentResponse = [] := by
  rw [foldl_content, h]
  show (onTurnComplete { s with currentResponse := [] ++ accumText ps }).textResponses = _ ∧
    (onTurnComplete { s with currentResponse := [] ++ accumText ps }).currentResponse = []
  rw [List.nil_append]
  rcases accumText_cases ps with h0 | h0
  · rw [h0]
    unfold onTurnComplete
    rw [if_neg (by simp [trim, ltrim, rtrim])]
    constructor
    · rw [if_pos (show trim ([] : Str) = [] from rfl)]
    · rfl
  · unfold onTurnComplete
    rw [if_pos (by simpa using h0)]
    constructor
    · rw [if_neg h0]
    · rfl

/-- Claim C1, witness for the amended theorem at the event sequence delivering
`"Hello"` and `" world"` from the freshly mounted state. -/
theorem content_turncomplete_aggregation_witness :
    initialState.currentResponse = [] ∧
    ((step ((psHelloWorld.map ServerEvent.content).foldl step initialState)
        ServerEvent.turncomplete).textResponses =
      (if trim (accumText psHelloWorld) = [] then initialState.textResponses
       else initialState.textResponses ++ [trim (accumText psHelloWorld)]) ∧
    (step ((psHelloWorld.map ServerEvent.content).foldl step initialState)
        ServerEvent.turncomplete).currentResponse = []) :=
  ⟨rfl, content_turncomplete_aggregation initialState psHelloWorld rfl⟩

/-- Claim C2, counterexample: a `toolcall` event with two function invocations
produces exactly one `sendToolResponse` call (carrying both responses), not
the two calls the claim predicts. -/
theorem toolcall_single_send_not_per_invocation :
    ((onToolCall initialAltairState [fcAlpha, fcBeta]).sentCalls).length = 1 ∧
    ((onToolCall initialAltairState [fcAlpha, fcBeta]).sentCalls).length ≠ 2 := by
  constructor
  · decide
  · decide

/-- Claim C2, amended: every `toolcall` event with at least one function
invocation results in exactly one `sendToolResponse` call whose
`functionResponses` array carries one generic success response per invocation,
in order, each with that invocation's id — even when no invocation matches a
registered declaration. -/
theorem toolcall_single_send (s : AltairState) (tc : List FunctionCall)
    (h : tc ≠ []) :
    (onToolCall s tc).sentCalls =
      s.sentCalls ++ [tc.map (fun fc => { id := fc.id, success := true })] ∧
    (tc.map (fun fc =>
        ({ id := fc.id, success := true } : FunctionResponsePart))).map
      FunctionResponsePart.id = tc.map FunctionCall.id := by
  constructor
  · rw [onToolCall_ne_nil s tc h]
  · rw [List.map_map]
    rfl

/-- Claim C2, witness: the two-invocation event, neither invocation matching a
registered declaration, still yields one response per invocation. -/
theorem toolcall_single_send_witness :
    [fcAlpha, fcBeta] ≠ ([] : List FunctionCall) ∧
    ((onToolCall initialAltairState [fcAlpha, fcBeta]).sentCalls =
      initialAltairState.sentCalls ++
        [[fcAlpha, fcBeta].map (fun fc => { id := fc.id, success := true })] ∧
    ([fcAlpha, fcBeta].map (fun fc =>
        ({ id := fc.id, success := true } : FunctionResponsePart))).map
      FunctionResponsePart.id = [fcAlpha, fcBeta].map FunctionCall.id) :=
  ⟨by decide, toolcall_single_send initialAltairState [fcAlpha, fcBeta] (by decide)⟩

/-- Claim C3, counterexample: from the freshly mounted state, with no
`setConfig` call ever made, `connect()` does not reject — the missing-config
guard never fires because `useState` initializes the config to a default — and
one connection attempt is made. -/
theorem connect_without_setConfig_succeeds :
    connect initialState =
      Except.ok { initialState with connected := true, connectAttempts := 1 } := by
  rfl

/-- Claim C3, amended: `connect()` would reject with the error
`"config has not been set"` only if the config value were missing; in every
reachable hook state the config is present (it is initialized to a default and
`setConfig` always stores a value), so `connect()` — with or without a prior
`setConfig()` — always proceeds to attempt a connection and reports success. -/
theorem connect_always_attempts (s : LiveState) (h : Reachable s) :
    connect s =
      Except.ok { s with connected := true,
                         connectAttempts := s.connectAttempts + 1 } := by
  have hc := reachable_config s h
  cases hcfg : s.config with
  | none => exact absurd hcfg hc
  | some c => simp [connect, hcfg]

/-- Claim C3, witness for the amended theorem at a reachable state produced by
one `setConfig` call. -/
theorem connect_always_attempts_witness :
    connect (applyAction initialState (Action.setCfg defaultConfig)) =
      Except.ok { applyAction initialState (Action.setCfg defaultConfig) with
        connected := true,
        connectAttempts :=
          (applyAction initialState (Action.setCfg defaultConfig)).connectAttempts
            + 1 } :=
  connect_always_attempts _ (Reachable.act (Action.setCfg defaultConfig) Reachable.init)

/-- Claim C4, counterexample: a `clientContent` event whose single turn carries
the text `" Hi "` appends the untrimmed string `" Hi "` to `userMessages`, not
the trimmed `"Hi"` the claim predicts. -/
theorem clientContent_entry_not_trimmed :
    (step initialState (ServerEvent.clientContent
        (some [{ parts := [{ text := some " Hi ".toList }] }]))).userMessages =
      [" Hi ".toList] ∧
    (step initialState (ServerEvent.clientContent
        (some [{ parts := [{ text := some " Hi ".toList }] }]))).userMessages ≠
      ["Hi".toList] := by
  constructor
  · decide
  · decide

/-- Claim C4, amended: for every `clientContent` event carrying turns,
`userMessages` grows by exactly one entry equal to the joined text — parts
joined by a single space within a turn, per-turn strings joined by a single
space, with no trimming applied to the stored entry — or by zero entries if
that text is empty after trimming; trimming is used only for the emptiness
test. -/
theorem clientContent_appends_untrimmed (s : LiveState) (turns : List Turn) :
    (step s (ServerEvent.clientContent (some turns))).userMessages =
      (if trim (userText turns) = [] then s.userMessages
       else s.userMessages ++ [userText turns]) ∧
    (step s (ServerEvent.clientContent (some turns))).userMessages.length =
      (if trim (userText turns) = [] then s.userMessages.length
       else s.userMessages.length + 1) := by
  show (onClientContent s (some turns)).userMessages = _ ∧
    (onClientContent s (some turns)).userMessages.length = _
  rw [onClientContent_some]
  by_cases hc : trim (userText turns) = []
  · rw [if_neg (by simpa using hc), if_pos hc, if_pos hc]
    exact ⟨rfl, rfl⟩
  · rw [if_pos hc, if_neg hc, if_neg hc]
    constructor
    · rfl
    · simp

/-- Claim C5, counterexample: a `toolcall` event with two invocations both
named `render_altair` (arguments `"A"` then `"B"`) leaves `jsonString` equal
to `"A"`: only the first matching invocation reached the handler — had both
been handled in order, the stored value would be `"B"`. -/
theorem toolcall_second_match_ignored :
    (onToolCall initialAltairState [fcGraphA, fcGraphB]).jsonString =
      "A".toList ∧
    (onToolCall initialAltairState [fcGraphA, fcGraphB]).jsonString ≠
      "B".toList := by
  constructor
  · decide
  · decide

/-- Claim C5, amended: in a `toolcall` event, the first invocation (in array
order) whose name matches the registered declaration — and only that one —
has its `json_graph` argument handed to the handler, regardless of how many
later invocations also match. -/
theorem toolcall_handler_first_match (s : AltairState)
    (pre post : List FunctionCall) (fc : FunctionCall)
    (hfc : (fc.name == declarationName) = true)
    (hpre : ∀ g ∈ pre, (g.name == declarationName) = false) :
    (onToolCall s (pre ++ fc :: post)).jsonString = fc.jsonGraph := by
  have hne : pre ++ fc :: post ≠ [] := by
    simp
  rw [onToolCall_ne_nil s _ hne, find_first_match pre post fc hfc hpre]

/-- Claim C5, witness: with a non-matching invocation first and a second
matching invocation after `fcGraphA`, the handler still receives `"A"`. -/
theorem toolcall_handler_first_match_witness :
    (fcGraphA.name == declarationName) = true ∧
    (∀ g ∈ [fcAlpha], (g.name == declarationName) = false) ∧
    (onToolCall initialAltairState ([fcAlpha] ++ fcGraphA :: [fcGraphB])).jsonString =
      fcGraphA.jsonGraph :=
  ⟨by decide, by decide,
    toolcall_handler_first_match initialAltairState [fcAlpha] [fcGraphB] fcGraphA
      (by decide) (by decide)⟩

/-- Claim C6: a `turncomplete` event arriving while the accumulator is blank
(empty after trimming) appends nothing to the completed turns: `textResponses`
and its length are unchanged. -/
theorem turncomplete_empty_skip (s : LiveState)
    (h : trim s.currentResponse = []) :
    (step s ServerEvent.turncomplete).textResponses = s.textResponses ∧
    (step s ServerEvent.turncomplete).textResponses.length =
      s.textResponses.length := by
  show (onTurnComplete s).textResponses = _ ∧ (onTurnComplete s).textResponses.length = _
  unfold onTurnComplete
  rw [if_neg (by simpa using h)]
  exact ⟨rfl, rfl⟩

/-- Claim C6, witness: the freshly mounted state has a blank accumulator and a
`turncomplete` event leaves `textResponses` unchanged. -/
theorem turncomplete_empty_skip_witness :
    trim initialState.currentResponse = [] ∧
    ((step initialState ServerEvent.turncomplete).textResponses =
        initialState.textResponses ∧
      (step initialState ServerEvent.turncomplete).textResponses.length =
        initialState.textResponses.length) :=
  ⟨rfl, turncomplete_empty_skip initialState rfl⟩

/-- Claim C7: after every `turncomplete` event processed in a reachable hook
state, the pending accumulator is the empty string.  (A state whose
accumulator holds only whitespace is unreachable: `onServerContent` only ever
appends text with non-whitespace content, so the accumulator is always either
empty — and `turncomplete` keeps it empty — or non-blank — and `turncomplete`
resets it.) -/
theorem turncomplete_clears_accumulator (s : LiveState) (h : Reachable s) :
    (step s ServerEvent.turncomplete).currentResponse = [] := by
  show (onTurnComplete s).currentResponse = []
  rcases reachable_goodAcc s h with hnil | hink
  · unfold onTurnComplete
    rw [hnil]
    rw [if_neg (by simp [trim, ltrim, rtrim])]
    exact hnil
  · unfold onTurnComplete
    rw [if_pos hink]

/-- Claim C7, witness: `turncomplete` at the freshly mounted state leaves the
accumulator empty. -/
theorem turncomplete_clears_accumulator_witness :
    (step initialState ServerEvent.turncomplete).currentResponse = [] :=
  turncomplete_clears_accumulator initialState Reachable.init

/-- Claim C8: processing a `close` event sets the connected flag to false and
leaves the accumulated turn history — `textResponses`, `userMessages` and the
pending accumulator — exactly as it was. -/
theorem close_sets_disconnected_only (s : LiveState) :
    (step s ServerEvent.close).connected = false ∧
    (step s ServerEvent.close).textResponses = s.textResponses ∧
    (step s ServerEvent.close).userMessages = s.userMessages ∧
    (step s ServerEvent.close).currentResponse = s.currentResponse :=
  ⟨rfl, rfl, rfl, rfl⟩

/-- Claim C9: in every reachable state, and after every further event or
operation, every completed model turn is non-empty and equal to its own trim,
every stored user message is non-blank, and both histories are append-only
(the old history is a prefix of the new one). -/
theorem history_invariant (s : LiveState) (a : Action) (h : Reachable s) :
    goodState s ∧ goodState (applyAction s a) ∧
    s.textResponses <+: (applyAction s a).textResponses ∧
    s.userMessages <+: (applyAction s a).userMessages :=
  ⟨reachable_goodState s h,
    goodState_applyAction s a (reachable_goodState s h),
    (applyAction_history_extends s a).1,
    (applyAction_history_extends s a).2⟩

/-- Claim C9, witness: the invariant holds at the freshly mounted state and is
kept by a `turncomplete` event. -/
theorem history_invariant_witness :
    goodState initialState ∧
    goodState (applyAction initialState (Action.ev ServerEvent.turncomplete)) ∧
    initialState.textResponses <+:
      (applyAction initialState (Action.ev ServerEvent.turncomplete)).textResponses ∧
    initialState.userMessages <+:
      (applyAction initialState (Action.ev ServerEvent.turncomplete)).userMessages :=
  history_invariant initialState (Action.ev ServerEvent.turncomplete) Reachable.init

/-- Claim C10: `disconnect()` only clears the connected flag: the completed
turns, the user messages, the volume, the session config and the pending
accumulator are all untouched, from any starting state. -/
theorem disconnect_frame (s : LiveState) :
    (disconnect s).connected = false ∧
    (disconnect s).textResponses = s.textResponses ∧
    (disconnect s).userMessages = s.userMessages ∧
    (disconnect s).volume = s.volume ∧
    (disconnect s).config = s.config ∧
    (disconnect s).currentResponse = s.currentResponse :=
  ⟨rfl, rfl, rfl, rfl, rfl, rfl⟩

end LiveApi
